import Mathlib

/-!
Verification of the stock-tinder annotation UI (static/app.js).

The program is a single-threaded, event-driven browser client.  We embed its
global mutable state (tickers, currentIndex, currentData, annotations,
selectionRange, plus the two checkbox inputs the handlers read) as a structure
`AppState`, and each event handler as a pure step function
`AppState → AppState × List Effect`, where `Effect` records the externally
visible persistence calls.  Backend responses (fetched bar series and
annotation sets) and readings of the chart library (visible logical range)
enter as parameters of the corresponding operation.

JavaScript times may be absent (`undefined`); we model a possibly-absent
number as `Option Int`, and JS truthiness of such a value (`undefined` and
`0` are falsy) as `truthy`.  A JS index that may be `NaN` is likewise an
`Option Int` with `none` for `NaN`: `NaN` fails every `<`/`>=` comparison
(`jsLt`, `jsGe`) and propagates through arithmetic and `%` (`jsMod`).
-/

/-- One OHLCV bar, `{time, open, high, low, close, value}` (app.js data rows).
Prices and volumes are only copied around by the code under verification, so
they are embedded as integers. -/
structure Bar where
  time : Int
  open_ : Int
  high : Int
  low : Int
  close : Int
  value : Int
deriving DecidableEq, Repr

/-- One annotation record `{start, end, pattern, score}` (app.js:579-584). -/
structure AnnEntry where
  start : Int
  end_ : Int
  pattern : String
  score : Int
deriving DecidableEq, Repr

/-- The per-ticker annotation store `{human_annotations, ai_predictions}`
(app.js:12). -/
structure Annotations where
  human_annotations : List AnnEntry
  ai_predictions : List AnnEntry
deriving DecidableEq, Repr

/-- The transient selection `selectionRange = {start, end}`; `none` models
`null`. -/
structure SelectionRange where
  start : Option Int
  end_ : Option Int
deriving DecidableEq, Repr

/-- The global state of app.js (lines 4-18) restricted to the fields the
annotation workflow reads or writes.  `viewHuman` and `selectMode` mirror the
`viewHuman` radio and `select-mode-toggle` checkbox that the handlers read
live from the DOM.  `dataCache` is not a field: it is rebuilt from
`currentData` on every load (app.js:295-296), so it is derived by `cacheGet`.
Pure layout state (`isTableVisible`, `volumeHeightRatio`) never interacts
with the annotation store and is omitted. -/
structure AppState where
  tickers : List String
  currentIndex : Option Int
  currentData : List Bar
  annotations : Annotations
  selectionRange : SelectionRange
  viewHuman : Bool
  selectMode : Bool
deriving DecidableEq, Repr

/-- JS truthiness of a possibly-undefined numeric value: `undefined` (`none`)
and `0` are falsy, every other number is truthy. -/
def truthy : Option Int → Bool
  | none => false
  | some v => v != 0

/-- JS `a < b` where `a` may be `NaN` (`none`): `NaN` compares false. -/
def jsLt (a : Option Int) (b : Int) : Bool :=
  match a with
  | none => false
  | some x => decide (x < b)

/-- JS `a >= b` where `a` may be `NaN` (`none`): `NaN` compares false. -/
def jsGe (a : Option Int) (b : Int) : Bool :=
  match a with
  | none => false
  | some x => decide (b ≤ x)

/-- JS `a % m` where `a` may be `NaN`: `NaN % m = NaN`, `a % 0 = NaN`, and on
integers JS `%` is the truncated remainder (sign of the dividend). -/
def jsMod (a : Option Int) (m : Int) : Option Int :=
  match a with
  | none => none
  | some x => if m = 0 then none else some (Int.tmod x m)

/-- JS `Array.prototype.slice(start, stop)`: negative endpoints count from the
end of the array, then the window is clamped to the array. -/
def jsSlice (l : List Bar) (start stop : Int) : List Bar :=
  let len : Int := l.length
  let s := if start < 0 then max (len + start) 0 else min start len
  let e := if stop < 0 then max (len + stop) 0 else min stop len
  (l.drop s.toNat).take (e - s).toNat

/-- `dataCache.get t` after `dataCache.clear(); currentData.forEach(d =>
dataCache.set(d.time, d))` (app.js:295-296): the last bar of the series with
the given time, if any. -/
def cacheGet (data : List Bar) (t : Int) : Option Bar :=
  data.foldl (fun acc d => if d.time = t then some d else acc) none

/-- Externally visible actions of the handlers: the persistence POST made by
`saveAnnotations` (app.js:306-313), carrying the active ticker and the whole
annotations object, and the alert shown when scoring outside Human view. -/
inductive Effect where
  | save (ticker : Option String) (payload : Annotations)
  | alertSwitchToHuman
deriving DecidableEq, Repr

/-- `tickers[currentIndex]` — `undefined` (`none`) for `NaN` or an
out-of-range index. -/
def tickerAt (tickers : List String) (idx : Option Int) : Option String :=
  match idx with
  | none => none
  | some i => if i < 0 then none else tickers.get? i.toNat

/-- `saveAnnotations()` (app.js:306-313): POSTs the entire current
`annotations` object for `tickers[currentIndex]`. -/
def saveAnnotations (s : AppState) : Effect :=
  Effect.save (tickerAt s.tickers s.currentIndex) s.annotations

/-- Result of `syncCrosshair` on the target chart: `setCrosshairPosition` or
`clearCrosshairPosition`. -/
inductive CrossAction where
  | set (price : Int) (time : Int)
  | clear
deriving DecidableEq, Repr

/-- `syncCrosshair(param, targetChart, targetSeries)` (app.js:177-193).
`targetIsPrice = true` when the target series is the candlestick series (a
move on the volume chart mirrored onto the price chart), `false` for the
volume series.  JS `!param.time` holds for `undefined` and for time `0`. -/
def syncCrosshair (data : List Bar) (targetIsPrice : Bool)
    (paramTime : Option Int) : CrossAction :=
  if ¬ truthy paramTime then CrossAction.clear
  else
    match paramTime with
    | none => CrossAction.clear
    | some t =>
      match cacheGet data t with
      | some d => CrossAction.set (if targetIsPrice then d.close else d.value) t
      | none => CrossAction.clear

/-- The `chart.subscribeClick` handler (app.js:236-258).  `paramTime = none`
models `param.time` undefined; `hasSourceEvent` models the truthiness of
`param.sourceEvent`; `shiftKey` is `param.sourceEvent.shiftKey`.  The final
`drawSelectionMarkers()` only renders and is omitted. -/
def chartClick (s : AppState) (paramTime : Option Int)
    (hasSourceEvent shiftKey : Bool) : AppState :=
  if ¬ truthy paramTime ∨ ¬ hasSourceEvent then s
  else if ¬ shiftKey ∧ ¬ s.selectMode then s
  else
    match paramTime with
    | none => s
    | some clickedTime =>
      let sel := s.selectionRange
      if ¬ truthy sel.start ∨ (truthy sel.start ∧ truthy sel.end_) then
        { s with selectionRange := { start := some clickedTime, end_ := none } }
      else
        match sel.start with
        | some sv =>
          if clickedTime < sv then
            { s with selectionRange := { start := some clickedTime, end_ := some sv } }
          else
            { s with selectionRange := { start := some sv, end_ := some clickedTime } }
        | none =>
          { s with selectionRange := { start := none, end_ := some clickedTime } }

/-- `renderChart()` (app.js:318-354) restricted to its state effect: when
`currentData` is empty it returns before reaching line 341, otherwise it sets
`selectionRange = { start: null, end: null }`.  Everything else in it only
drives the chart library. -/
def renderChart (s : AppState) : AppState :=
  if s.currentData.isEmpty then s
  else { s with selectionRange := { start := none, end_ := none } }

/-- `loadTicker(index)` (app.js:284-304).  The two backend responses (the bar
series and the annotation set for the ticker) are parameters.  The guard
`index < 0 || index >= tickers.length` uses JS comparisons, which a `NaN`
index fails, so a `NaN` index passes the guard and the load proceeds. -/
def loadTicker (s : AppState) (index : Option Int)
    (fetchedData : List Bar) (fetchedAnn : Annotations) : AppState :=
  if jsLt index 0 ∨ jsGe index s.tickers.length then s
  else
    renderChart { s with
      currentIndex := index
      currentData := fetchedData
      annotations := fetchedAnn }

/-- Index computed by the Next button (app.js:534):
`(currentIndex + 1) % tickers.length`. -/
def nextIndex (s : AppState) : Option Int :=
  jsMod (s.currentIndex.map (· + 1)) s.tickers.length

/-- Index computed by the Prev button (app.js:533):
`(currentIndex - 1 + tickers.length) % tickers.length`. -/
def prevIndex (s : AppState) : Option Int :=
  jsMod (s.currentIndex.map (· - 1 + s.tickers.length)) s.tickers.length

/-- The `start_date`/`end_date` fallback of the score handler
(app.js:561-575): when a visible range exists, slice the bars under the
visible logical range and take the first and last visible times.
`visRangeOk` models the truthiness of `getVisibleRange()` and of its `from`
and `to` endpoints; `logicalRange = some (lf, ct)` carries
`Math.floor(logicalRange.from)` and `Math.ceil(logicalRange.to)` (`none` for
a null logical range).  `(none, none)` models both dates left undefined. -/
def visibleFallback (data : List Bar) (visRangeOk : Bool)
    (logicalRange : Option (Int × Int)) : Option Int × Option Int :=
  if visRangeOk then
    match logicalRange with
    | some (lf, ct) =>
      let fromIdx : Int := max 0 lf
      let toIdx : Int := min ((data.length : Int) - 1) ct
      match jsSlice data fromIdx (toIdx + 1) with
      | [] => (none, none)
      | d :: rest => (some d.time, some (((d :: rest).getLastD d).time))
    | none => (none, none)
  else (none, none)

/-- The `start_date`/`end_date` selection of the score handler
(app.js:554-576): priority 1 is a truthy confirmed selection, priority 2 the
visible-range fallback. -/
def chooseRange (s : AppState) (visRangeOk : Bool)
    (logicalRange : Option (Int × Int)) : Option Int × Option Int :=
  if truthy s.selectionRange.start ∧ truthy s.selectionRange.end_ then
    (s.selectionRange.start, s.selectionRange.end_)
  else visibleFallback s.currentData visRangeOk logicalRange

/-- The `.btn-score` click handler (app.js:545-595).  `k` is the parsed
`data-score` of the pressed button.  `if (start_date && end_date)` is JS
truthiness again: both dates defined and nonzero.  On creation the new record
is pushed, the selection cleared, select mode switched off, and the mutated
store saved. -/
def scoreButton (s : AppState) (k : Int) (visRangeOk : Bool)
    (logicalRange : Option (Int × Int)) : AppState × List Effect :=
  if s.viewHuman = false then (s, [Effect.alertSwitchToHuman])
  else
    match chooseRange s visRangeOk logicalRange with
    | (some a, some b) =>
      if a ≠ 0 ∧ b ≠ 0 then
        let s1 : AppState := { s with
          annotations := { s.annotations with
            human_annotations :=
              s.annotations.human_annotations ++
                [{ start := a, end_ := b, pattern := "vcp", score := k }] }
          selectionRange := { start := none, end_ := none }
          selectMode := false }
        (s1, [saveAnnotations s1])
      else (s, [])
    | _ => (s, [])

/-- The inline score-edit `change` handler attached in `renderTable`
(app.js:439-447).  `v` is `parseInt` of the typed text; the `min="1"
max="6"` attributes of the input do not constrain typed values, so any
integer can arrive here.  An index outside the human list makes the JS
handler throw on the member write before any mutation or save; that aborted
run is modelled as a no-op. -/
def scoreEdit (s : AppState) (idx : Nat) (v : Int) : AppState × List Effect :=
  if s.viewHuman = false then (s, [])
  else if h : idx < s.annotations.human_annotations.length then
    let old := s.annotations.human_annotations.get ⟨idx, h⟩
    let s1 : AppState := { s with
      annotations := { s.annotations with
        human_annotations :=
          s.annotations.human_annotations.set idx { old with score := v } } }
    (s1, [saveAnnotations s1])
  else (s, [])

/-- The `.btn-delete` click handler attached in `renderTable`
(app.js:450-459).  `splice(idx, 1)` removes nothing for an out-of-range
index, but `saveAnnotations` still runs. -/
def deleteRow (s : AppState) (idx : Nat) : AppState × List Effect :=
  if s.viewHuman = false then (s, [])
  else
    let s1 : AppState := { s with
      annotations := { s.annotations with
        human_annotations := s.annotations.human_annotations.eraseIdx idx } }
    (s1, [saveAnnotations s1])

/-- The `viewToggle` change handler (app.js:537-542): only re-renders, the
store is untouched; the view radio itself changes. -/
def setView (s : AppState) (human : Bool) : AppState :=
  { s with viewHuman := human }

/-- The user toggling the `select-mode-toggle` checkbox. -/
def setSelectMode (s : AppState) (b : Bool) : AppState :=
  { s with selectMode := b }

/-- The UI events that touch the embedded state. -/
inductive Op where
  | click (paramTime : Option Int) (hasSourceEvent shiftKey : Bool)
  | load (index : Option Int) (fetchedData : List Bar) (fetchedAnn : Annotations)
  | score (k : Int) (visRangeOk : Bool) (logicalRange : Option (Int × Int))
  | edit (idx : Nat) (v : Int)
  | delete (idx : Nat)
  | view (human : Bool)
  | selectModeSet (b : Bool)

/-- One event-handler step: the next state and the effects it emits. -/
def step (s : AppState) : Op → AppState × List Effect
  | Op.click pt hse sk => (chartClick s pt hse sk, [])
  | Op.load i fd fa => (loadTicker s i fd fa, [])
  | Op.score k v r => scoreButton s k v r
  | Op.edit i v => scoreEdit s i v
  | Op.delete i => deleteRow s i
  | Op.view h => (setView s h, [])
  | Op.selectModeSet b => (setSelectMode s b, [])

/-- The initial global state (app.js:4-18): empty ticker list, index 0, empty
series and store.  `selectionRange` is first materialised as
`{start: null, end: null}` by the initial render; `viewHuman` mirrors the
Human radio being checked on load. -/
def initialState : AppState :=
  { tickers := []
    currentIndex := some 0
    currentData := []
    annotations := { human_annotations := [], ai_predictions := [] }
    selectionRange := { start := none, end_ := none }
    viewHuman := true
    selectMode := false }

/-- A completed selection is ordered: whenever both endpoints are set, the
start is not after the end. -/
def SelOrdered (sel : SelectionRange) : Prop :=
  ∀ a b : Int, sel.start = some a → sel.end_ = some b → a ≤ b

/-- Selection endpoints, when set, are truthy times (never 0) — the click
handler rejects falsy times before storing them. -/
def SelWF (sel : SelectionRange) : Prop :=
  (∀ a : Int, sel.start = some a → a ≠ 0) ∧
  (∀ b : Int, sel.end_ = some b → b ≠ 0)

/-- The selection never has an end without a start. -/
def SelNoLoneEnd (sel : SelectionRange) : Prop :=
  sel.end_ ≠ none → sel.start ≠ none

/-- The empty annotation store. -/
def emptyAnn : Annotations :=
  { human_annotations := [], ai_predictions := [] }

/-- Sample bar series, times ascending. -/
def sampleBars : List Bar :=
  [{ time := 1, open_ := 10, high := 12, low := 9, close := 11, value := 100 },
   { time := 2, open_ := 11, high := 13, low := 10, close := 12, value := 200 },
   { time := 3, open_ := 12, high := 14, low := 11, close := 13, value := 300 }]

/-- Sample state: two tickers loaded, a confirmed selection from time 1 to 3,
Human view active. -/
def sampleState : AppState :=
  { tickers := ["AAA", "BBB"]
    currentIndex := some 0
    currentData := sampleBars
    annotations := emptyAnn
    selectionRange := { start := some 1, end_ := some 3 }
    viewHuman := true
    selectMode := false }

/-- Sample state with one human annotation and one AI prediction. -/
def sampleState2 : AppState :=
  { sampleState with
    annotations :=
      { human_annotations := [{ start := 1, end_ := 3, pattern := "vcp", score := 3 }]
        ai_predictions := [{ start := 2, end_ := 3, pattern := "vcp", score := 5 }] } }

/-- Sample state in AI-predictions view. -/
def sampleStateAI : AppState :=
  { sampleState2 with viewHuman := false }

/-- Sample state positioned on the last of its two tickers. -/
def sampleStateLast : AppState :=
  { sampleState with currentIndex := some 1 }

/-- State with a pending selection and one ticker whose next load will fetch
an empty series. -/
def c6State : AppState :=
  { initialState with
    tickers := ["AAA"]
    selectionRange := { start := some 5, end_ := some 7 } }

/-- A bar at Unix time 0 (the epoch) — a falsy but present time. -/
def epochBar : Bar :=
  { time := 0, open_ := 1, high := 2, low := 0, close := 10, value := 100 }

/-! ## Helper lemmas -/

theorem truthy_some_iff {v : Int} : truthy (some v) = true ↔ v ≠ 0 := by
  simp [truthy]

theorem truthy_eq_false_iff {o : Option Int} :
    truthy o = false ↔ o = none ∨ o = some 0 := by
  cases o with
  | none => simp [truthy]
  | some v => simp [truthy]

/-- Case analysis of the click handler's effect on the selection: it leaves
it unchanged, starts a new selection at a truthy time, or completes one —
putting the two truthy endpoints in order. -/
theorem chartClick_selection (s : AppState) (pt : Option Int) (hse sk : Bool) :
    (chartClick s pt hse sk).selectionRange = s.selectionRange
    ∨ (∃ t : Int, t ≠ 0 ∧
        (chartClick s pt hse sk).selectionRange = { start := some t, end_ := none })
    ∨ (∃ t sv : Int, t ≠ 0 ∧ sv ≠ 0 ∧ s.selectionRange.start = some sv ∧
        ((t < sv ∧ (chartClick s pt hse sk).selectionRange
            = { start := some t, end_ := some sv })
         ∨ (sv ≤ t ∧ (chartClick s pt hse sk).selectionRange
            = { start := some sv, end_ := some t }))) := by
  cases pt with
  | none => left; simp [chartClick, truthy]
  | some t =>
    simp only [chartClick]
    split
    · exact Or.inl rfl
    next h1 =>
      split
      · exact Or.inl rfl
      next h2 =>
        rw [not_or, not_not, not_not] at h1
        have ht : t ≠ 0 := truthy_some_iff.mp h1.1
        split
        · exact Or.inr (Or.inl ⟨t, ht, rfl⟩)
        next h3 =>
          rw [not_or, not_not] at h3
          have hstart : truthy s.selectionRange.start = true := h3.1
          cases hs : s.selectionRange.start with
          | none => rw [hs] at hstart; simp [truthy] at hstart
          | some sv =>
            have hsv : sv ≠ 0 := by
              rw [hs] at hstart; exact truthy_some_iff.mp hstart
            simp only [hs]
            split
            next hlt =>
              exact Or.inr (Or.inr ⟨t, sv, ht, hsv, rfl, Or.inl ⟨hlt, rfl⟩⟩)
            next hge =>
              exact Or.inr (Or.inr ⟨t, sv, ht, hsv, rfl,
                Or.inr ⟨Int.not_lt.mp hge, rfl⟩⟩)

/-- Loading either leaves the selection alone (guard failed, or empty fetched
series) or clears it. -/
theorem loadTicker_selection (s : AppState) (i : Option Int)
    (fd : List Bar) (fa : Annotations) :
    (loadTicker s i fd fa).selectionRange = s.selectionRange
    ∨ (loadTicker s i fd fa).selectionRange = { start := none, end_ := none } := by
  unfold loadTicker renderChart
  split
  · exact Or.inl rfl
  · split
    · exact Or.inl rfl
    · exact Or.inr rfl

/-- Case analysis of the score-button handler: either the state is unchanged,
or exactly one annotation `{start: a, end: b, pattern: "vcp", score: k}` with
truthy `a`, `b` drawn from `chooseRange` is pushed, the selection cleared,
select mode switched off, and the new store saved. -/
theorem scoreButton_cases (s : AppState) (k : Int) (v : Bool)
    (r : Option (Int × Int)) :
    (scoreButton s k v r).1 = s
    ∨ ∃ a b : Int, a ≠ 0 ∧ b ≠ 0 ∧ chooseRange s v r = (some a, some b) ∧
        s.viewHuman = true ∧
        scoreButton s k v r =
          (let s1 : AppState := { s with
            annotations := { s.annotations with
              human_annotations := s.annotations.human_annotations ++
                [{ start := a, end_ := b, pattern := "vcp", score := k }] }
            selectionRange := { start := none, end_ := none }
            selectMode := false }
           (s1, [saveAnnotations s1])) := by
  unfold scoreButton
  split
  · exact Or.inl rfl
  next hv =>
    have hv' : s.viewHuman = true := by
      cases h : s.viewHuman
      · exact absurd h hv
      · rfl
    split
    next a b heq =>
      split
      next hab => exact Or.inr ⟨a, b, hab.1, hab.2, heq, hv', rfl⟩
      next hab => exact Or.inl rfl
    next heq => exact Or.inl rfl

/-- With a truthy confirmed selection, priority 1 wins: the chosen range is
the selection itself. -/
theorem chooseRange_of_selection (s : AppState) (v : Bool) (r : Option (Int × Int))
    (a b : Int) (ha : s.selectionRange.start = some a) (ha0 : a ≠ 0)
    (hb : s.selectionRange.end_ = some b) (hb0 : b ≠ 0) :
    chooseRange s v r = (some a, some b) := by
  unfold chooseRange
  rw [ha, hb]
  simp [truthy, ha0, hb0]

/-- `jsSlice` returns a sublist of its input. -/
theorem jsSlice_sublist (l : List Bar) (a b : Int) : (jsSlice l a b).Sublist l := by
  unfold jsSlice
  exact (List.take_sublist _ _).trans (List.drop_sublist _ _)

/-- In a list whose times ascend pairwise, the head's time bounds the last
element's time. -/
theorem head_time_le_getLastD_time (d : Bar) (rest : List Bar)
    (hp : (d :: rest).Pairwise (fun x y => x.time ≤ y.time)) :
    d.time ≤ ((d :: rest).getLastD d).time := by
  rw [List.getLastD_cons]
  have hmem : rest.getLastD d ∈ d :: rest := List.getLastD_mem_cons rest d
  rcases List.mem_cons.mp hmem with h | h
  · rw [h]
  · exact (List.pairwise_cons.mp hp).1 _ h

/-- The visible-range fallback slices the cached series, so on a series whose
times ascend, the dates it picks are the times of the first and last bar of a
sublist — in order. -/
theorem visibleFallback_ordered (data : List Bar) (v : Bool)
    (r : Option (Int × Int)) (a b : Int)
    (hsorted : data.Pairwise (fun d e => d.time ≤ e.time))
    (h : visibleFallback data v r = (some a, some b)) : a ≤ b := by
  unfold visibleFallback at h
  split at h
  · match r, h with
    | some (lf, ct), h =>
      revert h
      simp only
      cases hsl : jsSlice data (max 0 lf)
          (min ((data.length : Int) - 1) ct + 1) with
      | nil => intro h; exact absurd h (by simp)
      | cons d rest =>
        intro h
        have ha : d.time = a := Option.some.inj (congrArg Prod.fst h)
        have hb : ((d :: rest).getLastD d).time = b :=
          Option.some.inj (congrArg Prod.snd h)
        have hsub : (d :: rest).Sublist data := by
          rw [← hsl]; exact jsSlice_sublist _ _ _
        have hp := List.Pairwise.sublist hsub hsorted
        rw [← ha, ← hb]
        exact head_time_le_getLastD_time d rest hp
  · exact absurd h (by simp)

/-- Whatever pair of dates the score handler settles on is ordered: a
confirmed selection is ordered by the invariant, the fallback by the
ascending series. -/
theorem chooseRange_ordered (s : AppState) (v : Bool) (r : Option (Int × Int))
    (a b : Int) (hsel : SelOrdered s.selectionRange)
    (hsorted : s.currentData.Pairwise (fun d e => d.time ≤ e.time))
    (h : chooseRange s v r = (some a, some b)) : a ≤ b := by
  unfold chooseRange at h
  split at h
  · have ha : s.selectionRange.start = some a := congrArg Prod.fst h
    have hb : s.selectionRange.end_ = some b := congrArg Prod.snd h
    exact hsel a b ha hb
  · exact visibleFallback_ordered s.currentData v r a b hsorted h

/-- A numerically out-of-range index makes `loadTicker` return at once. -/
theorem loadTicker_invalid (s : AppState) (i : Int)
    (fd : List Bar) (fa : Annotations)
    (h : i < 0 ∨ (s.tickers.length : Int) ≤ i) :
    loadTicker s (some i) fd fa = s := by
  unfold loadTicker
  rw [if_pos]
  rcases h with h | h
  · exact Or.inl (by simp [jsLt, h])
  · exact Or.inr (by simp [jsGe, h])

/-- A valid index makes `loadTicker` run in full: the index, series and
annotation store are replaced by the fetched values, then `renderChart`
handles the selection. -/
theorem loadTicker_valid (s : AppState) (i : Int)
    (fd : List Bar) (fa : Annotations)
    (h0 : 0 ≤ i) (h1 : i < (s.tickers.length : Int)) :
    loadTicker s (some i) fd fa =
      renderChart { s with currentIndex := some i, currentData := fd,
                           annotations := fa } := by
  unfold loadTicker
  rw [if_neg]
  rw [not_or]
  constructor
  · simp [jsLt]; omega
  · simp [jsGe]; omega

/-- `renderChart` never touches the store, the index or the series. -/
theorem renderChart_frame (s : AppState) :
    (renderChart s).annotations = s.annotations
    ∧ (renderChart s).currentIndex = s.currentIndex
    ∧ (renderChart s).currentData = s.currentData
    ∧ (renderChart s).tickers = s.tickers := by
  unfold renderChart
  split
  · exact ⟨rfl, rfl, rfl, rfl⟩
  · exact ⟨rfl, rfl, rfl, rfl⟩

/-- Selection after any step: unchanged, cleared, a fresh start at a truthy
time, or a completed selection of two truthy times in order. -/
theorem step_selection_cases (s : AppState) (op : Op) :
    ((step s op).1).selectionRange = s.selectionRange
    ∨ ((step s op).1).selectionRange = { start := none, end_ := none }
    ∨ (∃ t : Int, t ≠ 0 ∧
        ((step s op).1).selectionRange = { start := some t, end_ := none })
    ∨ (∃ t sv : Int, t ≠ 0 ∧ sv ≠ 0 ∧ s.selectionRange.start = some sv ∧
        ((t < sv ∧ ((step s op).1).selectionRange
            = { start := some t, end_ := some sv })
         ∨ (sv ≤ t ∧ ((step s op).1).selectionRange
            = { start := some sv, end_ := some t }))) := by
  cases op with
  | click pt hse sk =>
    rcases chartClick_selection s pt hse sk with h | h | h
    · exact Or.inl h
    · exact Or.inr (Or.inr (Or.inl h))
    · exact Or.inr (Or.inr (Or.inr h))
  | load i fd fa =>
    rcases loadTicker_selection s i fd fa with h | h
    · exact Or.inl h
    · exact Or.inr (Or.inl h)
  | score k v r =>
    rcases scoreButton_cases s k v r with h | ⟨a, b, ha, hb, hcr, hv, h⟩
    · exact Or.inl (by simp only [step]; rw [h])
    · exact Or.inr (Or.inl (by simp only [step]; rw [h]))
  | edit i v =>
    left
    simp only [step]
    unfold scoreEdit
    split
    · rfl
    · split <;> rfl
  | delete i =>
    left
    simp only [step]
    unfold deleteRow
    split <;> rfl
  | view h => exact Or.inl rfl
  | selectModeSet b => exact Or.inl rfl

/-- When Human view is active and the chosen dates are truthy, the score
handler pushes exactly one new record and saves. -/
theorem scoreButton_push (s : AppState) (k : Int) (v : Bool)
    (r : Option (Int × Int)) (hview : s.viewHuman = true) (a b : Int)
    (ha0 : a ≠ 0) (hb0 : b ≠ 0)
    (hcr : chooseRange s v r = (some a, some b)) :
    scoreButton s k v r =
      (let s1 : AppState := { s with
        annotations := { s.annotations with
          human_annotations := s.annotations.human_annotations ++
            [{ start := a, end_ := b, pattern := "vcp", score := k }] }
        selectionRange := { start := none, end_ := none }
        selectMode := false }
       (s1, [saveAnnotations s1])) := by
  unfold scoreButton
  rw [if_neg (by rw [hview]; simp)]
  split
  next a' b' heq =>
    rw [hcr] at heq
    have hae : a = a' := Option.some.inj (congrArg Prod.fst heq)
    have hbe : b = b' := Option.some.inj (congrArg Prod.snd heq)
    subst hae hbe
    rw [if_pos ⟨ha0, hb0⟩]
  next heq => exact absurd hcr (heq a b)

/-! ## Claim theorems -/

/-- C1: Every human annotation the program creates — from a confirmed
two-click selection or from the visible-range fallback — satisfies
`start ≤ end`, assuming the fetched bar series ascends in time:
(i) the ordering invariant of the pending selection holds initially and is
preserved by every operation; (ii) after a score press every human
annotation is either one that was already present or is ordered; (iii) the
two-click path swaps the endpoints when the second clicked time is earlier
than the first. -/
theorem c1_created_annotations_ordered :
    (SelOrdered initialState.selectionRange
      ∧ ∀ (s : AppState) (op : Op), SelOrdered s.selectionRange →
          SelOrdered ((step s op).1).selectionRange)
    ∧ (∀ (s : AppState) (k : Int) (v : Bool) (r : Option (Int × Int)),
        SelOrdered s.selectionRange →
        s.currentData.Pairwise (fun d e => d.time ≤ e.time) →
        ∀ a ∈ ((step s (Op.score k v r)).1).annotations.human_annotations,
          a ∈ s.annotations.human_annotations ∨ a.start ≤ a.end_)
    ∧ (∀ (s : AppState) (t sv : Int), t ≠ 0 → sv ≠ 0 → t < sv →
        s.selectionRange.start = some sv → s.selectionRange.end_ = none →
        (chartClick s (some t) true true).selectionRange
          = { start := some t, end_ := some sv }) := by
  refine ⟨⟨?_, ?_⟩, ?_, ?_⟩
  · intro a b h1 h2
    simp [initialState] at h1
  · intro s op hord
    rcases step_selection_cases s op with h | h | ⟨t, ht, h⟩ | ⟨t, sv, ht, hsv, hs, h⟩
    · rw [h]; exact hord
    · intro a b h1 h2; rw [h] at h1; simp at h1
    · intro a b h1 h2; rw [h] at h2; simp at h2
    · rcases h with ⟨hlt, h⟩ | ⟨hle, h⟩
      · intro a b h1 h2
        rw [h] at h1 h2
        have ha : a = t := (Option.some.inj h1).symm
        have hb : b = sv := (Option.some.inj h2).symm
        subst ha hb
        exact le_of_lt hlt
      · intro a b h1 h2
        rw [h] at h1 h2
        have ha : a = sv := (Option.some.inj h1).symm
        have hb : b = t := (Option.some.inj h2).symm
        subst ha hb
        exact hle
  · intro s k v r hord hsorted a ha
    rcases scoreButton_cases s k v r with h | ⟨a', b', ha', hb', hcr, hv, h⟩
    · simp only [step] at ha
      rw [h] at ha
      exact Or.inl ha
    · simp only [step] at ha
      rw [h] at ha
      simp only [List.mem_append, List.mem_singleton] at ha
      rcases ha with ha | ha
      · exact Or.inl ha
      · right
        rw [ha]
        exact chooseRange_ordered s v r a' b' hord hsorted hcr
  · intro s t sv ht hsv hlt hs he
    simp only [chartClick]
    rw [if_neg (by simp [truthy, ht])]
    rw [if_neg (by simp)]
    rw [if_neg (by simp [hs, he, truthy, hsv])]
    simp only [hs]
    rw [if_pos hlt]

/-- C1 witness: on `sampleState` (ascending bars, ordered selection 1..3), a
score press yields only annotations that are old or ordered; in particular
the one it creates. -/
theorem c1_witness :
    ({ start := 1, end_ := 3, pattern := "vcp", score := 4 } : AnnEntry)
        ∈ sampleState.annotations.human_annotations
    ∨ ({ start := 1, end_ := 3, pattern := "vcp", score := 4 } : AnnEntry).start
        ≤ ({ start := 1, end_ := 3, pattern := "vcp", score := 4 } : AnnEntry).end_ :=
  c1_created_annotations_ordered.2.1 sampleState 4 false none
    (by intro a b h1 h2; simp [sampleState] at h1 h2; omega)
    (by decide)
    { start := 1, end_ := 3, pattern := "vcp", score := 4 }
    (by decide)

/-- C2: (i) selection endpoints, when set, are truthy times — this holds
initially and is preserved by every operation, because the click handler
rejects falsy times before storing them; (ii) for every state with a
confirmed selection (`start` and `end` both set) and every score press `k`
while Human view is active, exactly one new annotation
`{start, end, pattern: "vcp", score: k}` is appended to the end of the
`human_annotations` list. -/
theorem c2_score_press_appends :
    (SelWF initialState.selectionRange
      ∧ ∀ (s : AppState) (op : Op), SelWF s.selectionRange →
          SelWF ((step s op).1).selectionRange)
    ∧ (∀ (s : AppState) (k a b : Int) (v : Bool) (r : Option (Int × Int)),
        s.viewHuman = true → SelWF s.selectionRange →
        s.selectionRange.start = some a → s.selectionRange.end_ = some b →
        ((step s (Op.score k v r)).1).annotations.human_annotations
          = s.annotations.human_annotations
              ++ [{ start := a, end_ := b, pattern := "vcp", score := k }]) := by
  refine ⟨⟨?_, ?_⟩, ?_⟩
  · constructor
    · intro a h; simp [initialState] at h
    · intro b h; simp [initialState] at h
  · intro s op hwf
    rcases step_selection_cases s op with h | h | ⟨t, ht, h⟩ | ⟨t, sv, ht, hsv, hs, hc⟩
    · rw [h]; exact hwf
    · rw [h]
      exact ⟨fun a ha => by simp at ha, fun b hb => by simp at hb⟩
    · rw [h]
      constructor
      · intro a ha
        have : t = a := Option.some.inj ha
        rw [← this]; exact ht
      · intro b hb; simp at hb
    · rcases hc with ⟨hlt, h⟩ | ⟨hle, h⟩
      · rw [h]
        constructor
        · intro a ha
          have : t = a := Option.some.inj ha
          rw [← this]; exact ht
        · intro b hb
          have : sv = b := Option.some.inj hb
          rw [← this]; exact hsv
      · rw [h]
        constructor
        · intro a ha
          have : sv = a := Option.some.inj ha
          rw [← this]; exact hsv
        · intro b hb
          have : t = b := Option.some.inj hb
          rw [← this]; exact ht
  · intro s k a b v r hview hwf hstart hend
    have ha0 : a ≠ 0 := hwf.1 a hstart
    have hb0 : b ≠ 0 := hwf.2 b hend
    have hcr := chooseRange_of_selection s v r a b hstart ha0 hend hb0
    have hp := scoreButton_push s k v r hview a b ha0 hb0 hcr
    simp only [step]
    rw [hp]

/-- C2 witness: on `sampleState` (Human view, confirmed selection 1..3),
pressing score 4 appends exactly `{start: 1, end: 3, pattern: "vcp",
score: 4}`. -/
theorem c2_witness :
    ((step sampleState (Op.score 4 false none)).1).annotations.human_annotations
      = sampleState.annotations.human_annotations
          ++ [{ start := 1, end_ := 3, pattern := "vcp", score := 4 }] :=
  c2_score_press_appends.2 sampleState 4 1 3 false none rfl
    ⟨fun a h => by simp [sampleState] at h; omega,
     fun b h => by simp [sampleState] at h; omega⟩
    rfl rfl

/-- C10: the selection never has an end without a start: this holds initially
and is preserved by every operation that touches it. -/
theorem c10_no_lone_end :
    SelNoLoneEnd initialState.selectionRange
    ∧ ∀ (s : AppState) (op : Op), SelNoLoneEnd s.selectionRange →
        SelNoLoneEnd ((step s op).1).selectionRange := by
  constructor
  · intro h; exact absurd rfl h
  · intro s op hinv
    rcases step_selection_cases s op with h | h | ⟨t, ht, h⟩ | ⟨t, sv, ht, hsv, hs, hc⟩
    · rw [h]; exact hinv
    · rw [h]; intro h1; exact absurd rfl h1
    · rw [h]; intro h1; exact absurd rfl h1
    · rcases hc with ⟨hlt, h⟩ | ⟨hle, h⟩
      · rw [h]; intro h1; simp
      · rw [h]; intro h1; simp

/-- C10 witness: after a shift-click at time 2 on `sampleState` the invariant
still holds. -/
theorem c10_witness :
    SelNoLoneEnd ((step sampleState (Op.click (some 2) true true)).1).selectionRange :=
  c10_no_lone_end.2 sampleState (Op.click (some 2) true true)
    (by intro h; simp [sampleState])

theorem bool_true_of_not_false {b : Bool} (h : ¬ b = false) : b = true := by
  cases hb : b
  · exact absurd hb h
  · rfl

/-- Case analysis of the inline score edit: no-op (wrong view or index out of
range), or the indexed score replaced and the new store saved. -/
theorem scoreEdit_cases (s : AppState) (i : Nat) (v : Int) :
    scoreEdit s i v = (s, [])
    ∨ ∃ h : i < s.annotations.human_annotations.length,
        s.viewHuman = true ∧
        scoreEdit s i v =
          (let s1 : AppState := { s with annotations := { s.annotations with
              human_annotations := s.annotations.human_annotations.set i
                { s.annotations.human_annotations.get ⟨i, h⟩ with score := v } } }
           (s1, [saveAnnotations s1])) := by
  unfold scoreEdit
  split
  · exact Or.inl rfl
  next hv =>
    split
    next h => exact Or.inr ⟨h, bool_true_of_not_false hv, rfl⟩
    · exact Or.inl rfl

/-- Case analysis of the row delete: no-op in AI view, otherwise the indexed
row spliced out (nothing removed when out of range) and the store saved. -/
theorem deleteRow_cases (s : AppState) (i : Nat) :
    deleteRow s i = (s, [])
    ∨ (s.viewHuman = true ∧ deleteRow s i =
        (let s1 : AppState := { s with annotations := { s.annotations with
            human_annotations := s.annotations.human_annotations.eraseIdx i } }
         (s1, [saveAnnotations s1]))) := by
  unfold deleteRow
  split
  · exact Or.inl rfl
  next hv => exact Or.inr ⟨bool_true_of_not_false hv, rfl⟩

/-- C3: every mutation of the annotation store by a UI action — score-button
creation, inline score edit, row delete — is followed by a persistence call
carrying the entire current annotations object (both lists) for the active
ticker. -/
theorem c3_mutations_saved (s : AppState) (op : Op)
    (hop : (∃ k v r, op = Op.score k v r) ∨ (∃ i v, op = Op.edit i v)
            ∨ (∃ i, op = Op.delete i))
    (hmut : ((step s op).1).annotations ≠ s.annotations) :
    Effect.save (tickerAt s.tickers ((step s op).1).currentIndex)
        ((step s op).1).annotations ∈ (step s op).2 := by
  rcases hop with ⟨k, v, r, rfl⟩ | ⟨i, v, rfl⟩ | ⟨i, rfl⟩
  · rcases scoreButton_cases s k v r with h | ⟨a, b, ha, hb, hcr, hv, h⟩
    · simp only [step] at hmut
      rw [h] at hmut
      exact absurd rfl hmut
    · simp only [step]
      rw [h]
      exact List.mem_singleton.mpr rfl
  · rcases scoreEdit_cases s i v with h | ⟨hlt, hv, h⟩
    · simp only [step] at hmut
      rw [h] at hmut
      exact absurd rfl hmut
    · simp only [step]
      rw [h]
      exact List.mem_singleton.mpr rfl
  · rcases deleteRow_cases s i with h | ⟨hv, h⟩
    · simp only [step] at hmut
      rw [h] at hmut
      exact absurd rfl hmut
    · simp only [step]
      rw [h]
      exact List.mem_singleton.mpr rfl

/-- C3 witness: deleting row 0 of `sampleState2` mutates the store, and the
emitted effects contain the save of the whole post-mutation store for the
active ticker. -/
theorem c3_witness :
    Effect.save (tickerAt sampleState2.tickers
        ((step sampleState2 (Op.delete 0)).1).currentIndex)
        ((step sampleState2 (Op.delete 0)).1).annotations
      ∈ (step sampleState2 (Op.delete 0)).2 :=
  c3_mutations_saved sampleState2 (Op.delete 0)
    (Or.inr (Or.inr ⟨0, rfl⟩)) (by decide)

/-- C4: only human annotations are editable or deletable: the three UI
mutations never change `ai_predictions`, and with the AI-predictions view
active the edit and delete handlers leave the whole state (and effect list)
unchanged while the score button creates nothing. -/
theorem c4_ai_readonly (s : AppState) :
    (∀ (k : Int) (v : Bool) (r : Option (Int × Int)),
        ((step s (Op.score k v r)).1).annotations.ai_predictions
          = s.annotations.ai_predictions)
    ∧ (∀ (i : Nat) (v : Int),
        ((step s (Op.edit i v)).1).annotations.ai_predictions
          = s.annotations.ai_predictions)
    ∧ (∀ i : Nat,
        ((step s (Op.delete i)).1).annotations.ai_predictions
          = s.annotations.ai_predictions)
    ∧ (s.viewHuman = false →
        (∀ (i : Nat) (v : Int), step s (Op.edit i v) = (s, []))
        ∧ (∀ i : Nat, step s (Op.delete i) = (s, []))
        ∧ (∀ (k : Int) (v : Bool) (r : Option (Int × Int)),
            (step s (Op.score k v r)).1 = s)) := by
  refine ⟨?_, ?_, ?_, ?_⟩
  · intro k v r
    rcases scoreButton_cases s k v r with h | ⟨a, b, _, _, _, _, h⟩
    · simp only [step]; rw [h]
    · simp only [step]; rw [h]
  · intro i v
    rcases scoreEdit_cases s i v with h | ⟨hlt, _, h⟩
    · simp only [step]; rw [h]
    · simp only [step]; rw [h]
  · intro i
    rcases deleteRow_cases s i with h | ⟨_, h⟩
    · simp only [step]; rw [h]
    · simp only [step]; rw [h]
  · intro hv
    refine ⟨?_, ?_, ?_⟩
    · intro i v; simp only [step]; unfold scoreEdit; rw [if_pos hv]
    · intro i; simp only [step]; unfold deleteRow; rw [if_pos hv]
    · intro k v r; simp only [step]; unfold scoreButton; rw [if_pos hv]

/-- C4 witness: in AI view, an inline edit leaves the state untouched and
emits nothing. -/
theorem c4_witness :
    step sampleStateAI (Op.edit 0 9) = (sampleStateAI, []) :=
  ((c4_ai_readonly sampleStateAI).2.2.2 rfl).1 0 9

/-- C5: loading any valid ticker index replaces the in-memory annotation
store wholesale with the backend's response — the resulting store is exactly
the fetched set, whatever the store held before. -/
theorem c5_load_replaces_store (s : AppState) (i : Int)
    (fd : List Bar) (fa : Annotations)
    (h0 : 0 ≤ i) (h1 : i < (s.tickers.length : Int)) :
    ((step s (Op.load (some i) fd fa)).1).annotations = fa := by
  simp only [step]
  rw [loadTicker_valid s i fd fa h0 h1]
  exact (renderChart_frame _).1

/-- C5 witness: loading ticker 1 of `sampleState` with an empty fetched set
leaves exactly the fetched (empty) store. -/
theorem c5_witness :
    ((step sampleState (Op.load (some 1) [] emptyAnn)).1).annotations
      = emptyAnn :=
  c5_load_replaces_store sampleState 1 [] emptyAnn (by decide) (by decide)

/-- C6 counterexample: loading the (valid) ticker 0 whose fetched series is
empty leaves the pending selection exactly as it was — not cleared to
`{start: null, end: null}` — because `renderChart` returns before its
clearing line when the series is empty. -/
theorem c6_counterexample :
    ((step c6State (Op.load (some 0) [] emptyAnn)).1).selectionRange
        = { start := some 5, end_ := some 7 }
    ∧ ((step c6State (Op.load (some 0) [] emptyAnn)).1).selectionRange
        ≠ { start := none, end_ := none } := by
  decide

/-- C6 amended: the pending selection is cleared after every annotation
creation, and after every valid ticker load whose fetched series is
nonempty; a load fetching an empty series leaves the selection untouched. -/
theorem c6_amended_selection_cleared (s : AppState) :
    (∀ (k : Int) (v : Bool) (r : Option (Int × Int)),
        ((step s (Op.score k v r)).1).annotations.human_annotations
            ≠ s.annotations.human_annotations →
        ((step s (Op.score k v r)).1).selectionRange
          = { start := none, end_ := none })
    ∧ (∀ (i : Int) (fd : List Bar) (fa : Annotations),
        0 ≤ i → i < (s.tickers.length : Int) → fd ≠ [] →
        ((step s (Op.load (some i) fd fa)).1).selectionRange
          = { start := none, end_ := none })
    ∧ (∀ (i : Int) (fa : Annotations),
        0 ≤ i → i < (s.tickers.length : Int) →
        ((step s (Op.load (some i) [] fa)).1).selectionRange
          = s.selectionRange) := by
  refine ⟨?_, ?_, ?_⟩
  · intro k v r hmut
    rcases scoreButton_cases s k v r with h | ⟨a, b, _, _, _, _, h⟩
    · simp only [step] at hmut
      rw [h] at hmut
      exact absurd rfl hmut
    · simp only [step]
      rw [h]
  · intro i fd fa h0 h1 hfd
    simp only [step]
    rw [loadTicker_valid s i fd fa h0 h1]
    unfold renderChart
    rw [if_neg (by simpa [List.isEmpty_iff] using hfd)]
  · intro i fa h0 h1
    simp only [step]
    rw [loadTicker_valid s i [] fa h0 h1]
    rfl

/-- C6 witness: loading ticker 1 of `sampleState` with a nonempty fetched
series clears the pending selection. -/
theorem c6_witness :
    ((step sampleState (Op.load (some 1) sampleBars emptyAnn)).1).selectionRange
      = { start := none, end_ := none } :=
  (c6_amended_selection_cleared sampleState).2.1 1 sampleBars emptyAnn
    (by decide) (by decide) (by decide)

/-- C7 (code bug): with one human annotation of score 3, typing 9 into its
score input in Human view stores score 9 — outside the documented 1..6
range — because the change handler stores `parseInt` of the text without any
range check, despite the input's `min="1" max="6"` attributes. -/
theorem c7_edit_stores_out_of_range :
    ((step sampleState2 (Op.edit 0 9)).1).annotations.human_annotations
        = [{ start := 1, end_ := 3, pattern := "vcp", score := 9 }]
    ∧ ¬ ∀ a ∈ ((step sampleState2 (Op.edit 0 9)).1).annotations.human_annotations,
          1 ≤ a.score ∧ a.score ≤ 6 := by
  refine ⟨by decide, ?_⟩
  intro h
  have h9 := h { start := 1, end_ := 3, pattern := "vcp", score := 9 } (by decide)
  simp at h9

/-- C8 counterexample: time 0 is present in the cache, yet a crosshair move
at time 0 clears the other chart's crosshair instead of setting it at the
bar's close, because `!param.time` also holds for the falsy time 0. -/
theorem c8_counterexample :
    cacheGet [epochBar] 0 = some epochBar
    ∧ syncCrosshair [epochBar] true (some 0) = CrossAction.clear
    ∧ syncCrosshair [epochBar] true (some 0)
        ≠ CrossAction.set epochBar.close 0 := by
  decide

/-- C8 amended: for every crosshair move at a nonzero time `t`: if `t` is in
the cached series the other chart's crosshair is set at `t` — at the bar's
close when the target is the price chart, at the bar's volume value when the
target is the volume chart — and if `t` is absent from the cache it is
cleared; a move with no time, or with the falsy time 0, clears it. -/
theorem c8_amended_crosshair_sync (data : List Bar) (t : Int) (ht : t ≠ 0) :
    (∀ d : Bar, cacheGet data t = some d →
        syncCrosshair data true (some t) = CrossAction.set d.close t
        ∧ syncCrosshair data false (some t) = CrossAction.set d.value t)
    ∧ (cacheGet data t = none →
        syncCrosshair data true (some t) = CrossAction.clear
        ∧ syncCrosshair data false (some t) = CrossAction.clear)
    ∧ (∀ b : Bool, syncCrosshair data b none = CrossAction.clear)
    ∧ (∀ b : Bool, syncCrosshair data b (some 0) = CrossAction.clear) := by
  refine ⟨?_, ?_, ?_, ?_⟩
  · intro d hd
    constructor <;> simp [syncCrosshair, truthy, ht, hd]
  · intro hd
    constructor <;> simp [syncCrosshair, truthy, ht, hd]
  · intro b
    simp [syncCrosshair, truthy]
  · intro b
    simp [syncCrosshair, truthy]

/-- C8 witness: a move at time 2 of `sampleBars` sets the price chart's
crosshair at the bar's close 12 and the volume chart's at its volume 200. -/
theorem c8_witness :
    syncCrosshair sampleBars true (some 2) = CrossAction.set 12 2
    ∧ syncCrosshair sampleBars false (some 2) = CrossAction.set 200 2 :=
  (c8_amended_crosshair_sync sampleBars 2 (by decide)).1
    { time := 2, open_ := 11, high := 13, low := 10, close := 12, value := 200 }
    (by decide)

/-- C9 counterexample: with an empty ticker list, the Next button computes
`(0 + 1) % 0`, which is `NaN`; `loadTicker(NaN)` passes the range guard
(`NaN` fails both comparisons) and proceeds, overwriting `currentIndex`
instead of returning with the state unmodified. -/
theorem c9_counterexample :
    nextIndex initialState = none
    ∧ (step initialState (Op.load (nextIndex initialState) [] emptyAnn)).1
        ≠ initialState
    ∧ ((step initialState
          (Op.load (nextIndex initialState) [] emptyAnn)).1).currentIndex
        = none := by
  decide

/-- C9 amended: ticker navigation wraps — Next from the last index computes
index 0 and Prev from index 0 computes the last index — and a valid load
runs in full, while `loadTicker` returns without modifying anything for any
numerically out-of-range index; but the `NaN` index arising from navigation
on an empty ticker list passes the guard and the load proceeds. -/
theorem c9_amended_navigation (s : AppState) (fd : List Bar)
    (fa : Annotations) :
    (∀ n : Nat, s.tickers.length = n + 1 → s.currentIndex = some (n : Int) →
        nextIndex s = some 0)
    ∧ (0 < s.tickers.length → s.currentIndex = some 0 →
        prevIndex s = some ((s.tickers.length : Int) - 1))
    ∧ (∀ i : Nat, i < s.tickers.length →
        ((step s (Op.load (some (i : Int)) fd fa)).1).currentIndex
            = some (i : Int)
        ∧ ((step s (Op.load (some (i : Int)) fd fa)).1).annotations = fa)
    ∧ (∀ i : Int, i < 0 ∨ (s.tickers.length : Int) ≤ i →
        step s (Op.load (some i) fd fa) = (s, [])) := by
  refine ⟨?_, ?_, ?_, ?_⟩
  · intro n hlen hidx
    unfold nextIndex jsMod
    rw [hidx, hlen]
    simp only [Option.map_some']
    rw [if_neg (by exact_mod_cast Nat.succ_ne_zero n)]
    congr 1
    have hc : ((n : Int) + 1) = ((n + 1 : Nat) : Int) := by push_cast; ring
    rw [hc, Int.tmod_self]
  · intro hlen hidx
    unfold prevIndex jsMod
    rw [hidx]
    simp only [Option.map_some']
    have hl0 : (0 : Int) < (s.tickers.length : Int) := by exact_mod_cast hlen
    rw [if_neg (by omega)]
    congr 1
    have hc : (0 : Int) - 1 + (s.tickers.length : Int)
        = (s.tickers.length : Int) - 1 := by ring
    rw [hc, Int.tmod_eq_emod (by omega) (by omega),
      Int.emod_eq_of_lt (by omega) (by omega)]
  · intro i hi
    have h0 : (0 : Int) ≤ (i : Int) := Int.ofNat_nonneg i
    have h1 : ((i : Int)) < (s.tickers.length : Int) := by exact_mod_cast hi
    simp only [step]
    rw [loadTicker_valid s i fd fa h0 h1]
    exact ⟨(renderChart_frame _).2.1, (renderChart_frame _).1⟩
  · intro i h
    simp only [step]
    rw [loadTicker_invalid s i fd fa h]

/-- C9 witness: Next from the last of two tickers computes index 0, and a
numerically out-of-range load leaves the state and effects untouched. -/
theorem c9_witness :
    nextIndex sampleStateLast = some 0
    ∧ step sampleState (Op.load (some 7) [] emptyAnn) = (sampleState, []) :=
  ⟨(c9_amended_navigation sampleStateLast [] emptyAnn).1 1 (by decide) (by decide),
   (c9_amended_navigation sampleState [] emptyAnn).2.2.2 7 (Or.inr (by decide))⟩
